import Mathlib

/-!
Verification of the promotion/discount rule evaluation engine described by
the repository's specification, together with the GraphQL resolvers present
in the source excerpt (`PromotionEvent.resolve_created_by`,
`Channel.resolve_countries`).

The engine itself (predicate evaluator, discount calculator, rule store,
lifecycle tracker) is specified abstractly in the spec; only its enum and
schema declarations appear in the excerpted source, so those components are
modelled from the spec's words.  The two resolvers are embedded directly
from the Python source.
-/

namespace Saleor

/-- Reward value type of a promotion rule, from `RewardValueType` in
`saleor/discount/__init__.py`: `fixed` or `percentage`. -/
inductive RewardValueType where
  | fixed
  | percentage
deriving DecidableEq, Repr

/-- Modelled from the spec: a catalogue item snapshot (product id, category
id set, collection id set, variant id) supplied by the product-catalog
collaborator. -/
structure CatalogueItem where
  product_id : Nat
  category_ids : List Nat
  collection_ids : List Nat
  variant_id : Nat
deriving DecidableEq, Repr

/-- Modelled from the spec: a `CataloguePredicate` is a tree of boolean
combinators (AND, OR, NOT) over leaf conditions (product-id-in-set,
category-id-in-set, collection-id-in-set, variant-id-in-set). -/
inductive CataloguePredicate where
  | andP : List CataloguePredicate → CataloguePredicate
  | orP : List CataloguePredicate → CataloguePredicate
  | notP : CataloguePredicate → CataloguePredicate
  | productIn : List Nat → CataloguePredicate
  | categoryIn : List Nat → CataloguePredicate
  | collectionIn : List Nat → CataloguePredicate
  | variantIn : List Nat → CataloguePredicate
deriving Repr

mutual

/-- Modelled from the spec: `matches(predicate, catalogue_item) -> bool`,
the recursive combinator-tree evaluation of the Predicate Evaluator.
AND is true iff all children are true, OR iff any child is true, NOT
inverts its child; leaves test set membership of the item's product id,
any of its category/collection ids, or its variant id. -/
def matchesP : CataloguePredicate → CatalogueItem → Bool
  | .andP ps, item => matchesAll ps item
  | .orP ps, item => matchesAny ps item
  | .notP p, item => !matchesP p item
  | .productIn ids, item => ids.contains item.product_id
  | .categoryIn ids, item => item.category_ids.any (fun c => ids.contains c)
  | .collectionIn ids, item => item.collection_ids.any (fun c => ids.contains c)
  | .variantIn ids, item => ids.contains item.variant_id

/-- Conjunction over a list of children (short-circuits on first false). -/
def matchesAll : List CataloguePredicate → CatalogueItem → Bool
  | [], _ => true
  | p :: ps, item => matchesP p item && matchesAll ps item

/-- Disjunction over a list of children (short-circuits on first true). -/
def matchesAny : List CataloguePredicate → CatalogueItem → Bool
  | [], _ => false
  | p :: ps, item => matchesP p item || matchesAny ps item

end

/-- Modelled from the spec: a `PromotionRule` with identity, catalogue
predicate, reward value type, reward value, and channel scope.  The owning
promotion is kept in the `Promotion` structure below. -/
structure Rule where
  id : Nat
  predicate : CataloguePredicate
  reward_value_type : RewardValueType
  reward_value : ℚ
  channels : List Nat

/-- Modelled from the spec: the resulting price for one matched rule:
`fixed` gives `max(base_price - reward_value, 0)` and `percentage` gives
`base_price * (1 - reward_value/100)`, clamped to be nonnegative. -/
def rulePrice (base : ℚ) (r : Rule) : ℚ :=
  match r.reward_value_type with
  | .fixed => max (base - r.reward_value) 0
  | .percentage => max (base * (1 - r.reward_value / 100)) 0

/-- Modelled from the spec: the conflict policy of the Discount Calculator:
keep the rule with the lowest resulting price (largest discount), breaking
ties by lowest rule identity. -/
def betterRule (base : ℚ) (best r : Rule) : Rule :=
  if rulePrice base r < rulePrice base best then r
  else if rulePrice base r = rulePrice base best ∧ r.id < best.id then r
  else best

/-- Modelled from the spec: select the single best rule among a non-empty
collection of matched rules. -/
def selectBest (base : ℚ) (r : Rule) (rs : List Rule) : Rule :=
  rs.foldl (betterRule base) r

/-- Modelled from the spec: the transient `DiscountLineResult` value —
catalogue item identity, selected rule identity (if any), and resulting
price. -/
structure DiscountLineResult where
  item_id : Nat
  selected_rule : Option Nat
  price : ℚ
deriving DecidableEq

/-- Modelled from the spec: the error taxonomy relevant to `apply`; a
negative base price is rejected as `InvalidInput`. -/
inductive DiscountError where
  | invalidInput
deriving DecidableEq, Repr

/-- Modelled from the spec: `apply(catalogue_item, base_price,
matched_rules) -> DiscountLineResult`.  A negative base price fails with
`InvalidInput`; an empty rule list returns the base price unchanged with
no rule selected; otherwise the single best rule (largest discount, ties
by lowest rule identity) determines the price. -/
def apply (item_id : Nat) (base : ℚ) (matched_rules : List Rule) :
    Except DiscountError DiscountLineResult :=
  if base < 0 then .error .invalidInput
  else
    match matched_rules with
    | [] => .ok ⟨item_id, none, base⟩
    | r :: rs =>
      let s := selectBest base r rs
      .ok ⟨item_id, some s.id, rulePrice base s⟩

/-- Promotion lifecycle event types, from `PromotionEvents` in
`saleor/discount/__init__.py` (administrative event types and the two
sweep-emitted lifecycle transitions). -/
inductive PromotionEventType where
  | promotion_created
  | promotion_updated
  | rule_created
  | rule_updated
  | rule_deleted
  | promotion_started
  | promotion_ended
deriving DecidableEq, Repr

/-- Modelled from the spec: the lifecycle states of a promotion:
Scheduled, Active, Ended. -/
inductive LifecycleState where
  | scheduled
  | active
  | ended
deriving DecidableEq, Repr

/-- Modelled from the spec: the per-promotion state seen by the Lifecycle
Tracker: scheduled dates, the stored lifecycle state and the append-only
event log. -/
structure PromotionLifecycle where
  start_date : Nat
  end_date : Option Nat
  state : LifecycleState
  events : List PromotionEventType
deriving DecidableEq, Repr

/-- Modelled from the spec: the state computed from wall-clock time:
Scheduled when now is before the start time; Active when the start time
has passed and the end time (if any) has not; Ended once a set end time
has passed. -/
def computeState (now : Nat) (p : PromotionLifecycle) : LifecycleState :=
  if now < p.start_date then .scheduled
  else
    match p.end_date with
    | none => .active
    | some e => if now < e then .active else .ended

/-- Modelled from the spec: events emitted on a lifecycle transition:
Scheduled to Active emits PROMOTION_STARTED; Active to Ended emits
PROMOTION_ENDED; a promotion that crossed both boundaries between sweeps
emits both, in order. -/
def emittedEvents : LifecycleState → LifecycleState → List PromotionEventType
  | .scheduled, .active => [.promotion_started]
  | .active, .ended => [.promotion_ended]
  | .scheduled, .ended => [.promotion_started, .promotion_ended]
  | _, _ => []

/-- Modelled from the spec: one run of the periodic lifecycle sweep, a
per-promotion conditional check-and-emit: only when the stored state
differs from the computed state does it transition and append events. -/
def sweep (now : Nat) (p : PromotionLifecycle) : PromotionLifecycle :=
  if computeState now p = p.state then p
  else { p with state := computeState now p,
                events := p.events ++ emittedEvents p.state (computeState now p) }

/-- Running the sweep a given number of times at the same instant. -/
def sweepIter (now : Nat) : Nat → PromotionLifecycle → PromotionLifecycle
  | 0, p => p
  | n + 1, p => sweepIter now n (sweep now p)

/-- Modelled from the spec: a Promotion held by the Rule Store: identity,
start time, optional end time, and its ordered list of rules. -/
structure Promotion where
  id : Nat
  start_date : Nat
  end_date : Option Nat
  rules : List Rule

/-- Modelled from the spec: whether a promotion's half-open interval from
start (inclusive) to end (exclusive) contains the given time. -/
def promotionActiveAt (t : Nat) (p : Promotion) : Bool :=
  p.start_date ≤ t &&
    match p.end_date with
    | none => true
    | some e => t < e

/-- Modelled from the spec: `list_active_rules(channel, at_time)` of the
Rule Store: rules whose promotion's interval contains `at_time` and whose
channel scope includes `channel`, in promotion creation order then rule
creation order (the store list is kept in creation order). -/
def list_active_rules (store : List Promotion) (channel : Nat) (at_time : Nat) :
    List Rule :=
  (store.filter (promotionActiveAt at_time)).flatMap
    (fun p => p.rules.filter (fun r => r.channels.contains channel))

/-- The fields of a `PromotionEvent` row used by `resolve_created_by` in
`saleor/graphql/discount/types/promotions.py`: the optional user and app
foreign keys. -/
structure PromotionEventRec where
  user_id : Option Nat
  app_id : Option Nat
deriving DecidableEq, Repr

/-- The value resolved by `resolve_created_by`: nothing, the event's user,
or the event's app. -/
inductive CreatedBy where
  | noEntity
  | user (id : Nat)
  | app (id : Nat)
deriving DecidableEq, Repr

/-- The permissions named by the resolver's permission checks:
`AccountPermissions.MANAGE_STAFF` and `AppPermission.MANAGE_APPS`. -/
inductive Perm where
  | manage_staff
  | manage_apps
deriving DecidableEq, Repr

/-- The owned object passed to `check_is_owner_or_has_one_of_perms`: the
loaded user or the loaded app of the event. -/
inductive OwnerRef where
  | user (id : Nat)
  | app (id : Nat)
deriving DecidableEq, Repr

/-- The error path of the resolver: `check_is_owner_or_has_one_of_perms`
raises `PermissionDenied` when the requester is neither the owner nor a
holder of the named permission. -/
inductive ResolverError where
  | permissionDenied
deriving DecidableEq, Repr

/-- Python truthiness of an optional integer field: `None` and `0` are
falsy, every other value truthy (as in `if root.user_id:`). -/
def truthy : Option Nat → Bool
  | none => false
  | some n => n != 0

/-- `PromotionEvent.resolve_created_by` from
`saleor/graphql/discount/types/promotions.py`: returns nothing when the
request context carries no authenticated user or app (`requester = none`);
otherwise, when `user_id` is truthy, it loads the event's user and returns
it only if `check_is_owner_or_has_one_of_perms(requester, user,
MANAGE_STAFF)` passes, raising `PermissionDenied` otherwise; else, when
`app_id` is truthy, it likewise returns the event's app guarded by
`check_is_owner_or_has_one_of_perms(requester, app, MANAGE_APPS)`; else it
returns nothing.  The helper `check_is_owner_or_has_one_of_perms` lives in
`saleor/graphql/account/utils.py`, outside the excerpt, so its outcome is
taken as a boolean-valued parameter `check` over an abstract requester
type: `false` stands for the raised `PermissionDenied`. -/
def resolve_created_by {R : Type} (check : R → OwnerRef → Perm → Bool)
    (requester : Option R) (ev : PromotionEventRec) :
    Except ResolverError CreatedBy :=
  match requester with
  | none => .ok .noEntity
  | some req =>
    if truthy ev.user_id then
      if check req (.user (ev.user_id.getD 0)) .manage_staff then
        .ok (.user (ev.user_id.getD 0))
      else .error .permissionDenied
    else if truthy ev.app_id then
      if check req (.app (ev.app_id.getD 0)) .manage_apps then
        .ok (.app (ev.app_id.getD 0))
      else .error .permissionDenied
    else .ok .noEntity

/-- A country as carried by a shipping zone: ISO code and display name
(equality of `Country` values is structural). -/
structure Country where
  code : String
  name : String
deriving DecidableEq, Repr

/-- A shipping zone's list of countries, the only field
`Channel.resolve_countries` reads. -/
structure ShippingZone where
  countries : List Country
deriving Repr

/-- The country-display pair built by the resolver
(`CountryDisplay(code=..., country=...)`). -/
structure CountryDisplay where
  code : String
  country : String
deriving DecidableEq, Repr

/-- `get_countries` inside `Channel.resolve_countries` from
`saleor/graphql/channel/types.py`: concatenate the countries of every
shipping zone, remove duplicates (`set(countries)`), sort ascending by
country name, and wrap each as a `CountryDisplay`. -/
def get_countries (shipping_zones : List ShippingZone) : List CountryDisplay :=
  let countries := shipping_zones.flatMap ShippingZone.countries
  let sorted_countries :=
    countries.dedup.mergeSort (fun a b => decide (a.name ≤ b.name))
  sorted_countries.map (fun c => { code := c.code, country := c.name })

/-! ## Theorems -/

/-- C3: the empty AND combinator evaluates to true for every catalogue
item, and the empty OR combinator evaluates to false for every catalogue
item. -/
theorem empty_and_or_vacuous (item : CatalogueItem) :
    matchesP (.andP []) item = true ∧ matchesP (.orP []) item = false :=
  ⟨rfl, rfl⟩

/-- C4: for every predicate and item, NOT inverts the child's result. -/
theorem not_inverts (p : CataloguePredicate) (item : CatalogueItem) :
    matchesP (.notP p) item = !matchesP p item :=
  rfl

/-- C2: for a nonnegative base price B and a percentage rule with reward
value R in the interval from 0 to 100, `apply` yields exactly
B * (1 - R/100), which lies between 0 and B. -/
theorem apply_percentage_exact (iid : Nat) (B R : ℚ) (rid : Nat)
    (pred : CataloguePredicate) (chs : List Nat)
    (hB : 0 ≤ B) (hR0 : 0 ≤ R) (hR1 : R ≤ 100) :
    apply iid B [⟨rid, pred, .percentage, R, chs⟩] =
      .ok ⟨iid, some rid, B * (1 - R / 100)⟩ ∧
    0 ≤ B * (1 - R / 100) ∧ B * (1 - R / 100) ≤ B := by
  have h1 : (0 : ℚ) ≤ 1 - R / 100 := by linarith
  have h0 : 0 ≤ B * (1 - R / 100) := mul_nonneg hB h1
  have hle : B * (1 - R / 100) ≤ B := by nlinarith
  refine ⟨?_, h0, hle⟩
  simp [apply, hB.not_lt, selectBest, rulePrice, max_eq_left h0]

/-- C2 witness: a 15 percent rule on a base of 100 prices the line at 85. -/
theorem apply_percentage_exact_witness :
    apply 1 100 [⟨5, .andP [], .percentage, 15, []⟩] =
      .ok ⟨1, some 5, 100 * (1 - 15 / 100)⟩ ∧
    0 ≤ (100 : ℚ) * (1 - 15 / 100) ∧ (100 : ℚ) * (1 - 15 / 100) ≤ 100 :=
  apply_percentage_exact 1 100 15 5 (.andP []) []
    (by norm_num) (by norm_num) (by norm_num)

/-- C5: for a nonnegative base price B and a fixed rule, `apply` yields
max(B - reward_value, 0), which is never negative however large the
reward value is. -/
theorem apply_fixed_clamped (iid : Nat) (B v : ℚ) (rid : Nat)
    (pred : CataloguePredicate) (chs : List Nat) (hB : 0 ≤ B) :
    apply iid B [⟨rid, pred, .fixed, v, chs⟩] =
      .ok ⟨iid, some rid, max (B - v) 0⟩ ∧
    0 ≤ max (B - v) 0 := by
  refine ⟨?_, le_max_right _ _⟩
  simp [apply, hB.not_lt, selectBest, rulePrice]

/-- C5 witness: a fixed reward of 70 on a base of 50 clamps the price to
0 rather than going negative. -/
theorem apply_fixed_clamped_witness :
    apply 2 50 [⟨9, .orP [], .fixed, 70, []⟩] =
      .ok ⟨2, some 9, max (50 - 70) 0⟩ ∧
    0 ≤ max ((50 : ℚ) - 70) 0 :=
  apply_fixed_clamped 2 50 70 9 (.orP []) [] (by norm_num)

/-- C6: `apply` fails (with the InvalidInput error) exactly when the base
price is negative, and on a nonnegative base price with no matched rules
it returns the base price unchanged with no rule selected. -/
theorem apply_error_iff_negative (iid : Nat) (B : ℚ) (rules : List Rule) :
    ((∃ e, apply iid B rules = .error e) ↔ B < 0) ∧
    (0 ≤ B → apply iid B [] = .ok ⟨iid, none, B⟩) := by
  constructor
  · constructor
    · rintro ⟨e, he⟩
      by_contra hB
      rcases rules with _ | ⟨r, rs⟩ <;> simp [apply, hB] at he
    · intro hB
      exact ⟨.invalidInput, by simp [apply, hB]⟩
  · intro hB
    simp [apply, hB.not_lt]

/-- C6 witness: a base price of minus 1 is rejected, and a base price of 5
with no rules comes back unchanged. -/
theorem apply_error_iff_negative_witness :
    ((∃ e, apply 1 (-1) ([] : List Rule) = .error e) ↔ (-1 : ℚ) < 0) ∧
    apply 1 5 [] = .ok ⟨1, none, 5⟩ :=
  ⟨(apply_error_iff_negative 1 (-1) []).1,
   (apply_error_iff_negative 1 5 []).2 (by norm_num)⟩

/-- The sweep never changes the scheduled dates of a promotion. -/
theorem sweep_dates (t : Nat) (p : PromotionLifecycle) :
    (sweep t p).start_date = p.start_date ∧ (sweep t p).end_date = p.end_date := by
  unfold sweep
  split <;> simp

/-- The computed state depends only on the scheduled dates. -/
theorem computeState_congr (t : Nat) (p q : PromotionLifecycle)
    (h1 : p.start_date = q.start_date) (h2 : p.end_date = q.end_date) :
    computeState t p = computeState t q := by
  unfold computeState
  rw [h1, h2]

/-- After one sweep, the stored state agrees with the computed state. -/
theorem sweep_state (t : Nat) (p : PromotionLifecycle) :
    (sweep t p).state = computeState t p := by
  unfold sweep
  split
  next h => exact h.symm
  next h => rfl

/-- One full sweep pass is idempotent at a fixed instant. -/
theorem sweep_sweep (t : Nat) (p : PromotionLifecycle) :
    sweep t (sweep t p) = sweep t p := by
  have hc : computeState t (sweep t p) = computeState t p :=
    computeState_congr t _ _ (sweep_dates t p).1 (sweep_dates t p).2
  have hs : (sweep t p).state = computeState t p := sweep_state t p
  rw [sweep, hc, hs, if_pos rfl]

/-- Iterating the sweep any positive number of times equals one sweep. -/
theorem sweepIter_eq (t n : Nat) (p : PromotionLifecycle) :
    sweepIter t n p = if n = 0 then p else sweep t p := by
  induction n generalizing p with
  | zero => rfl
  | succ m ih =>
    simp only [sweepIter, ih, sweep_sweep]
    rcases m with _ | m <;> simp [sweepIter]

/-- A transition emits PROMOTION_STARTED at most once. -/
theorem emitted_started_le_one (a b : LifecycleState) :
    (emittedEvents a b).count PromotionEventType.promotion_started ≤ 1 := by
  cases a <;> cases b <;> decide

/-- A transition emits PROMOTION_ENDED at most once. -/
theorem emitted_ended_le_one (a b : LifecycleState) :
    (emittedEvents a b).count PromotionEventType.promotion_ended ≤ 1 := by
  cases a <;> cases b <;> decide

/-- A transition out of the Active state never emits PROMOTION_STARTED. -/
theorem emitted_active_no_started (b : LifecycleState) :
    (emittedEvents .active b).count PromotionEventType.promotion_started = 0 := by
  cases b <;> decide

/-- C7: the lifecycle sweep is idempotent: any number of sweep runs at one
instant appends at most one PROMOTION_STARTED and at most one
PROMOTION_ENDED event to a promotion's log, and a promotion already in the
Active state never re-emits PROMOTION_STARTED. -/
theorem sweep_idempotent (p : PromotionLifecycle) (t n : Nat) :
    (sweepIter t n p).events.count PromotionEventType.promotion_started ≤
      p.events.count PromotionEventType.promotion_started + 1 ∧
    (sweepIter t n p).events.count PromotionEventType.promotion_ended ≤
      p.events.count PromotionEventType.promotion_ended + 1 ∧
    (p.state = .active →
      (sweepIter t n p).events.count PromotionEventType.promotion_started =
        p.events.count PromotionEventType.promotion_started) := by
  rw [sweepIter_eq]
  rcases n with _ | n
  · simp
  · simp only [Nat.succ_ne_zero, if_false]
    unfold sweep
    split
    · simp
    · refine ⟨?_, ?_, ?_⟩
      · simp [List.count_append]
        exact emitted_started_le_one _ _
      · simp [List.count_append]
        exact emitted_ended_le_one _ _
      · intro hact
        simp [List.count_append, hact, emitted_active_no_started]

/-- C7 witness: a promotion crossing its start date, swept twice at the
same instant, logs exactly one PROMOTION_STARTED event. -/
theorem sweep_idempotent_witness :
    (sweepIter 10 2 ⟨5, some 20, .scheduled, []⟩).events.count
        PromotionEventType.promotion_started ≤
      (List.count PromotionEventType.promotion_started []) + 1 ∧
    (sweepIter 10 2 ⟨5, some 20, .scheduled, []⟩).events.count
        PromotionEventType.promotion_ended ≤
      (List.count PromotionEventType.promotion_ended []) + 1 ∧
    ((⟨5, some 20, .scheduled, []⟩ : PromotionLifecycle).state = .active →
      (sweepIter 10 2 ⟨5, some 20, .scheduled, []⟩).events.count
          PromotionEventType.promotion_started =
        List.count PromotionEventType.promotion_started []) :=
  sweep_idempotent ⟨5, some 20, .scheduled, []⟩ 10 2

/-- The store's rules in promotion creation order then rule creation
order, each paired with its owning promotion. -/
def allRulesInOrder (store : List Promotion) : List (Promotion × Rule) :=
  store.flatMap (fun p => p.rules.map (fun r => (p, r)))

/-- Filtering the pairing of one promotion with its rules keeps exactly
the channel-matching rules when the promotion is active and nothing
otherwise. -/
theorem map_snd_filter_pair (p : Promotion) (rs : List Rule) (ch t : Nat) :
    ((rs.map (fun r => (p, r))).filter
      (fun q => promotionActiveAt t q.1 && decide (ch ∈ q.2.channels))).map
      Prod.snd =
    if promotionActiveAt t p then
      rs.filter (fun r => decide (ch ∈ r.channels))
    else [] := by
  induction rs with
  | nil => by_cases hp : promotionActiveAt t p <;> simp [hp]
  | cons r rs ih =>
    by_cases hp : promotionActiveAt t p <;>
      by_cases hr : ch ∈ r.channels <;>
        simp [List.filter_cons, hp, hr, ih]

/-- C8: `list_active_rules` returns exactly the rules whose owning
promotion's half-open interval contains the query time and whose channel
scope includes the queried channel, and it equals the stable
promotion-order-then-rule-order enumeration filtered by that condition. -/
theorem list_active_rules_spec (store : List Promotion) (ch t : Nat) :
    list_active_rules store ch t =
      ((allRulesInOrder store).filter
        (fun q => promotionActiveAt t q.1 && q.2.channels.contains ch)).map
        Prod.snd ∧
    ∀ r, r ∈ list_active_rules store ch t ↔
      ∃ p, p ∈ store ∧ r ∈ p.rules ∧
        promotionActiveAt t p = true ∧ r.channels.contains ch = true := by
  constructor
  · induction store with
    | nil => rfl
    | cons p ps ih =>
      simp only [list_active_rules, allRulesInOrder, List.flatMap_cons,
        List.filter_append, List.map_append] at ih ⊢
      rw [List.filter_cons]
      by_cases hp : promotionActiveAt t p
      · simp [hp, map_snd_filter_pair]
        simpa using ih
      · simp [hp, map_snd_filter_pair]
        simpa using ih
  · intro r
    simp only [list_active_rules, List.mem_flatMap, List.mem_filter]
    constructor
    · rintro ⟨p, ⟨hps, hact⟩, hr, hch⟩
      exact ⟨p, hps, hr, hact, hch⟩
    · rintro ⟨p, hps, hr, hact, hch⟩
      exact ⟨p, ⟨hps, hact⟩, hr, hch⟩

/-- C9 counterexample: with a requester present and `user_id` set, the
resolver does not always resolve the event's user: a requester failing the
owner-or-MANAGE_STAFF check gets `PermissionDenied` instead. -/
theorem resolve_created_by_counterexample :
    resolve_created_by (fun _ _ _ => false) (some ()) ⟨some 7, some 3⟩ =
      .error .permissionDenied ∧
    resolve_created_by (fun _ _ _ => false) (some ()) ⟨some 7, some 3⟩ ≠
      .ok (.user ((some 7).getD 0)) :=
  ⟨rfl, by simp [resolve_created_by, truthy]⟩

/-- C9 (amended): `resolve_created_by` returns nothing for an
unauthenticated request; with a requester present and `user_id` truthy it
resolves the event's user when the owner-or-MANAGE_STAFF check passes and
fails with PermissionDenied otherwise (regardless of `app_id`, so
`user_id` takes precedence); else with `app_id` truthy it resolves the
event's app under the owner-or-MANAGE_APPS check, failing likewise; with
neither id set it resolves to nothing. -/
theorem resolve_created_by_spec {R : Type} (check : R → OwnerRef → Perm → Bool)
    (req : R) (uid aid : Option Nat) :
    resolve_created_by check (none : Option R) ⟨uid, aid⟩ = .ok .noEntity ∧
    (truthy uid = true →
      (check req (.user (uid.getD 0)) .manage_staff = true →
        resolve_created_by check (some req) ⟨uid, aid⟩ =
          .ok (.user (uid.getD 0))) ∧
      (check req (.user (uid.getD 0)) .manage_staff = false →
        resolve_created_by check (some req) ⟨uid, aid⟩ =
          .error .permissionDenied)) ∧
    (truthy uid = false → truthy aid = true →
      (check req (.app (aid.getD 0)) .manage_apps = true →
        resolve_created_by check (some req) ⟨uid, aid⟩ =
          .ok (.app (aid.getD 0))) ∧
      (check req (.app (aid.getD 0)) .manage_apps = false →
        resolve_created_by check (some req) ⟨uid, aid⟩ =
          .error .permissionDenied)) ∧
    (truthy uid = false → truthy aid = false →
      resolve_created_by check (some req) ⟨uid, aid⟩ = .ok .noEntity) := by
  refine ⟨rfl,
    fun hu => ⟨fun hc => ?_, fun hc => ?_⟩,
    fun hu ha => ⟨fun hc => ?_, fun hc => ?_⟩,
    fun hu ha => ?_⟩ <;>
  simp_all [resolve_created_by]

/-- C9 witness: concrete events exercising each branch: no requester; both
ids set with a permitted requester (user wins); only the app id set, once
with a denied and once with a permitted requester; and neither id set. -/
theorem resolve_created_by_spec_witness :
    resolve_created_by (fun _ _ _ => true) (none : Option Unit)
      ⟨some 7, some 3⟩ = .ok .noEntity ∧
    resolve_created_by (fun _ _ _ => true) (some ()) ⟨some 7, some 3⟩ =
      .ok (.user ((some 7).getD 0)) ∧
    resolve_created_by (fun _ _ _ => false) (some ())
      ⟨(none : Option Nat), some 3⟩ = .error .permissionDenied ∧
    resolve_created_by (fun _ _ _ => true) (some ()) ⟨none, some 3⟩ =
      .ok (.app ((some 3).getD 0)) ∧
    resolve_created_by (fun _ _ _ => true) (some ()) ⟨none, none⟩ =
      .ok .noEntity :=
  ⟨(resolve_created_by_spec (fun _ _ _ => true) () (some 7) (some 3)).1,
   ((resolve_created_by_spec (fun _ _ _ => true) () (some 7) (some 3)).2.1
     (by decide)).1 rfl,
   ((resolve_created_by_spec (fun _ _ _ => false) () none (some 3)).2.2.1
     rfl (by decide)).2 rfl,
   ((resolve_created_by_spec (fun _ _ _ => true) () none (some 3)).2.2.1
     rfl (by decide)).1 rfl,
   (resolve_created_by_spec (fun _ _ _ => true) () none none).2.2.2 rfl rfl⟩

/-- C10: `get_countries` (the body of `Channel.resolve_countries`) lists
each country of the channel's shipping zones at most once, sorted in
ascending order of country name, and contains exactly the countries of
those zones. -/
theorem get_countries_spec (zones : List ShippingZone) :
    (get_countries zones).Pairwise (fun a b => a.country ≤ b.country) ∧
    (get_countries zones).Nodup ∧
    (∀ d, d ∈ get_countries zones ↔
      ∃ c, c ∈ zones.flatMap ShippingZone.countries ∧
        d = { code := c.code, country := c.name }) := by
  have hinj : Function.Injective
      (fun c : Country =>
        ({ code := c.code, country := c.name } : CountryDisplay)) := by
    rintro ⟨a1, a2⟩ ⟨b1, b2⟩ h
    simpa [CountryDisplay.mk.injEq, Country.mk.injEq] using h
  have htrans : ∀ a b c : Country,
      decide (a.name ≤ b.name) → decide (b.name ≤ c.name) →
      decide (a.name ≤ c.name) := by
    intro a b c h1 h2
    simp only [decide_eq_true_eq] at h1 h2 ⊢
    exact le_trans h1 h2
  have htotal : ∀ a b : Country,
      (decide (a.name ≤ b.name) || decide (b.name ≤ a.name)) = true := by
    intro a b
    simpa using le_total a.name b.name
  refine ⟨?_, ?_, ?_⟩
  · have hsorted := List.sorted_mergeSort htrans htotal
      (zones.flatMap ShippingZone.countries).dedup
    simp only [get_countries]
    exact hsorted.map _ (fun h => by simp_all)
  · have hnodup :
        ((zones.flatMap ShippingZone.countries).dedup.mergeSort
          (fun a b => decide (a.name ≤ b.name))).Nodup :=
      ((List.mergeSort_perm _ _).nodup_iff).mpr (List.nodup_dedup _)
    simp only [get_countries]
    exact hnodup.map hinj
  · intro d
    simp only [get_countries, List.mem_map, (List.mergeSort_perm _ _).mem_iff,
      List.mem_dedup]
    constructor
    · rintro ⟨c, hc, rfl⟩
      exact ⟨c, hc, rfl⟩
    · rintro ⟨c, hc, rfl⟩
      exact ⟨c, hc, rfl⟩

/-- The conflict-policy preorder: `s` is at least as good as `x` when its
resulting price is no higher, with equal prices requiring no higher rule
identity. -/
def BestRule (b : ℚ) (s x : Rule) : Prop :=
  rulePrice b s ≤ rulePrice b x ∧
    (rulePrice b s = rulePrice b x → s.id ≤ x.id)

theorem bestRule_refl (b : ℚ) (r : Rule) : BestRule b r r :=
  ⟨le_refl _, fun _ => le_refl _⟩

theorem bestRule_trans (b : ℚ) {s m r : Rule}
    (h1 : BestRule b s m) (h2 : BestRule b m r) : BestRule b s r := by
  obtain ⟨h1p, h1i⟩ := h1
  obtain ⟨h2p, h2i⟩ := h2
  refine ⟨le_trans h1p h2p, fun he => ?_⟩
  have hsm : rulePrice b s = rulePrice b m := le_antisymm h1p (by linarith)
  have hmr : rulePrice b m = rulePrice b r := by linarith
  exact le_trans (h1i hsm) (h2i hmr)

theorem betterRule_best_left (b : ℚ) (best r : Rule) :
    BestRule b (betterRule b best r) best := by
  unfold betterRule
  split_ifs with h1 h2
  · exact ⟨le_of_lt h1, fun he => absurd he (ne_of_lt h1)⟩
  · exact ⟨le_of_eq h2.1, fun _ => le_of_lt h2.2⟩
  · exact bestRule_refl b best

theorem betterRule_best_right (b : ℚ) (best r : Rule) :
    BestRule b (betterRule b best r) r := by
  unfold betterRule
  split_ifs with h1 h2
  · exact bestRule_refl b r
  · exact bestRule_refl b r
  · refine ⟨not_lt.mp h1, fun he => ?_⟩
    have hid : ¬r.id < best.id := fun hlt => h2 ⟨he.symm, hlt⟩
    exact not_lt.mp hid

theorem betterRule_eq_or (b : ℚ) (best r : Rule) :
    betterRule b best r = best ∨ betterRule b best r = r := by
  unfold betterRule
  split_ifs <;> simp

theorem selectBest_mem (b : ℚ) (r : Rule) (rs : List Rule) :
    selectBest b r rs ∈ r :: rs := by
  induction rs generalizing r with
  | nil => simp [selectBest]
  | cons a t ih =>
    have hsel : selectBest b r (a :: t) = selectBest b (betterRule b r a) t :=
      rfl
    rw [hsel]
    have hmem := ih (betterRule b r a)
    rcases List.mem_cons.mp hmem with h1 | h1
    · rw [h1]
      rcases betterRule_eq_or b r a with h2 | h2 <;> rw [h2] <;> simp
    · exact List.mem_cons_of_mem _ (List.mem_cons_of_mem _ h1)

theorem selectBest_best (b : ℚ) (rs : List Rule) :
    ∀ (r : Rule), ∀ x ∈ r :: rs, BestRule b (selectBest b r rs) x := by
  induction rs with
  | nil =>
    intro r x hx
    rcases List.mem_cons.mp hx with h | h
    · subst h
      exact bestRule_refl b x
    · exact absurd h (List.not_mem_nil x)
  | cons a t ih =>
    intro r x hx
    have hsel : selectBest b r (a :: t) = selectBest b (betterRule b r a) t :=
      rfl
    rw [hsel]
    rcases List.mem_cons.mp hx with h | h
    · subst h
      exact bestRule_trans b
        (ih (betterRule b x a) _ (List.mem_cons_self _ _))
        (betterRule_best_left b x a)
    · rcases List.mem_cons.mp h with h1 | h1
      · subst h1
        exact bestRule_trans b
          (ih (betterRule b r x) _ (List.mem_cons_self _ _))
          (betterRule_best_right b r x)
      · exact ih (betterRule b r a) x (List.mem_cons_of_mem _ h1)

/-- C1: on a nonnegative base price and a non-empty list of matched rules,
`apply` selects a single rule from the list whose resulting price is the
lowest (discount the largest), and among equally priced rules the one with
the lowest rule identity, so the result is deterministic. -/
theorem apply_selects_best (iid : Nat) (B : ℚ) (rules : List Rule)
    (hB : 0 ≤ B) (hne : rules ≠ []) :
    ∃ s ∈ rules,
      apply iid B rules = .ok ⟨iid, some s.id, rulePrice B s⟩ ∧
      (∀ r ∈ rules, rulePrice B s ≤ rulePrice B r) ∧
      (∀ r ∈ rules, rulePrice B s = rulePrice B r → s.id ≤ r.id) := by
  obtain ⟨r, rs, rfl⟩ := List.exists_cons_of_ne_nil hne
  refine ⟨selectBest B r rs, selectBest_mem B r rs, ?_, ?_, ?_⟩
  · simp [apply, hB.not_lt]
  · intro x hx
    exact (selectBest_best B rs r x hx).1
  · intro x hx he
    exact (selectBest_best B rs r x hx).2 he

/-- C1 witness: with rules yielding discounts of 10 and 15 on a base of
100, `apply` selects a best rule in the stated sense. -/
theorem apply_selects_best_witness :
    ∃ s ∈ [(⟨1, .andP [], .fixed, 10, []⟩ : Rule),
           (⟨2, .andP [], .fixed, 15, []⟩ : Rule)],
      apply 1 100 [(⟨1, .andP [], .fixed, 10, []⟩ : Rule),
                   (⟨2, .andP [], .fixed, 15, []⟩ : Rule)] =
        .ok ⟨1, some s.id, rulePrice 100 s⟩ ∧
      (∀ r ∈ [(⟨1, .andP [], .fixed, 10, []⟩ : Rule),
              (⟨2, .andP [], .fixed, 15, []⟩ : Rule)],
        rulePrice 100 s ≤ rulePrice 100 r) ∧
      (∀ r ∈ [(⟨1, .andP [], .fixed, 10, []⟩ : Rule),
              (⟨2, .andP [], .fixed, 15, []⟩ : Rule)],
        rulePrice 100 s = rulePrice 100 r → s.id ≤ r.id) :=
  apply_selects_best 1 100 _ (by norm_num) (List.cons_ne_nil _ _)

end Saleor
